import Mathlib

/-!
# Verification of the DeepSpectrum batching-and-extraction core

Shallow embedding of `src/backend/extractor.py`: the `_batch_images`
generator, the `Extractor` base class and its four backend variants
(`TensorFlowExtractor`, `TensorflowHubExtractor`, `KerasExtractor`,
`CaffeExtractor`), together with the fragments of external-library
semantics the code relies on (numpy `uint8` coercion, Python `len`,
`caffe.io.Transformer.preprocess`).
-/

set_option autoImplicit false

namespace DeepSpectrum

/-! ## Data model for `_batch_images`

An input sample is a `(name, timestamp, image)` tuple; the image is a
dense array of integer pixel intensities, modelled here as the flat list
of its pixel values (their spatial arrangement is irrelevant to the
batching code, which only stacks whole images). -/

abbrev Sample := String × Int × List Int

def sampleName (s : Sample) : String := s.1
def sampleTs (s : Sample) : Int := s.2.1
def sampleImage (s : Sample) : List Int := s.2.2

def namesOf (l : List Sample) : List String := l.map sampleName
def tsOf (l : List Sample) : List Int := l.map sampleTs
def imagesOf (l : List Sample) : List (List Int) := l.map sampleImage

/-- Coercion `np.uint8` of one integer pixel value: numpy materialises
`np.array(..., dtype=np.uint8)` by reducing each integer modulo `2^8`
(two's-complement wraparound).  Modelled from numpy semantics. -/
def toUInt8 (x : Int) : Nat := (x % 256).toNat

/-- One batch as yielded by `_batch_images`: the `(name_batch, ts_batch,
image_batch)` triple, where `image_batch` is the `np.uint8` array stacked
from the buffered images. -/
structure Batch where
  names : List String
  tss : List Int
  images : List (List Nat)
deriving Repr, DecidableEq, Inhabited

/-- Materialisation step of `_batch_images`: `np.array(current_image_batch,
dtype=np.uint8)` stacks the buffered images into one array, coercing every
pixel to an unsigned 8-bit value. -/
def mkBatch (ns : List String) (ts : List Int) (imgs : List (List Int)) : Batch :=
  ⟨ns, ts, imgs.map (fun img => img.map toUInt8)⟩

/-- The loop of `_batch_images` (extractor.py:275-304).  State: the input
still to consume, the running `index`, and the three per-field buffers
`current_name_batch` / `current_ts_batch` / `current_image_batch`.  A batch
is materialised and yielded whenever `(index + 1) % batch_size == 0`; on
exhaustion a non-empty partial buffer is materialised and yielded
(`if current_name_batch:`), otherwise nothing more is emitted. -/
def batchLoop (bs : Nat) :
    List Sample → Nat → List String → List Int → List (List Int) → List Batch
  | [], _, ns, ts, imgs => if ns.isEmpty then [] else [mkBatch ns ts imgs]
  | s :: rest, index, ns, ts, imgs =>
    if (index + 1) % bs = 0 then
      mkBatch (ns ++ [sampleName s]) (ts ++ [sampleTs s]) (imgs ++ [sampleImage s])
        :: batchLoop bs rest (index + 1) [] [] []
    else
      batchLoop bs rest (index + 1)
        (ns ++ [sampleName s]) (ts ++ [sampleTs s]) (imgs ++ [sampleImage s])

/-- Model of `_batch_images(images, batch_size)`: the full (finite) sequence of
batches the generator yields on a finite input stream. -/
def batchImages (images : List Sample) (bs : Nat) : List Batch :=
  batchLoop bs images 0 [] [] []

@[simp] theorem mkBatch_names (ns : List String) (ts : List Int) (imgs : List (List Int)) :
    (mkBatch ns ts imgs).names = ns := rfl

@[simp] theorem mkBatch_tss (ns : List String) (ts : List Int) (imgs : List (List Int)) :
    (mkBatch ns ts imgs).tss = ts := rfl

@[simp] theorem mkBatch_images (ns : List String) (ts : List Int) (imgs : List (List Int)) :
    (mkBatch ns ts imgs).images = imgs.map (fun img => img.map toUInt8) := rfl

@[simp] theorem namesOf_nil : namesOf [] = [] := rfl
@[simp] theorem tsOf_nil : tsOf [] = [] := rfl
@[simp] theorem imagesOf_nil : imagesOf [] = [] := rfl
@[simp] theorem namesOf_cons (s : Sample) (l : List Sample) :
    namesOf (s :: l) = sampleName s :: namesOf l := rfl
@[simp] theorem tsOf_cons (s : Sample) (l : List Sample) :
    tsOf (s :: l) = sampleTs s :: tsOf l := rfl
@[simp] theorem imagesOf_cons (s : Sample) (l : List Sample) :
    imagesOf (s :: l) = sampleImage s :: imagesOf l := rfl
@[simp] theorem namesOf_length (l : List Sample) : (namesOf l).length = l.length :=
  List.length_map _ _
@[simp] theorem namesOf_take (n : Nat) (l : List Sample) :
    namesOf (l.take n) = (namesOf l).take n := by
  unfold namesOf; exact List.map_take _ _ _
@[simp] theorem tsOf_take (n : Nat) (l : List Sample) :
    tsOf (l.take n) = (tsOf l).take n := by
  unfold tsOf; exact List.map_take _ _ _
@[simp] theorem imagesOf_take (n : Nat) (l : List Sample) :
    imagesOf (l.take n) = (imagesOf l).take n := by
  unfold imagesOf; exact List.map_take _ _ _

/-- The loop depends on `index` only through `index % bs`. -/
theorem batchLoop_mod (bs : Nat) :
    ∀ (l : List Sample) (i j : Nat) (ns : List String) (ts : List Int)
      (imgs : List (List Int)), i % bs = j % bs →
      batchLoop bs l i ns ts imgs = batchLoop bs l j ns ts imgs := by
  intro l
  induction l with
  | nil => intro i j ns ts imgs _; rfl
  | cons s rest ih =>
    intro i j ns ts imgs h
    have h1 : (i + 1) % bs = (j + 1) % bs := by
      rw [Nat.add_mod i 1 bs, Nat.add_mod j 1 bs, h]
    simp only [batchLoop, h1]
    by_cases hc : (j + 1) % bs = 0
    · rw [if_pos hc, if_pos hc, ih (i + 1) (j + 1) [] [] [] h1]
    · rw [if_neg hc, if_neg hc, ih (i + 1) (j + 1) _ _ _ h1]

/-- Master unfolding lemma for the loop: starting at running index `index`
(so `index % bs` items of the current period are already buffered), either
the remaining input is too short to trigger a flush and the loop ends with
at most one final partial batch, or the first `bs - index % bs` items
complete a batch and the loop restarts with empty buffers at a period
boundary. -/
theorem batchLoop_eq (bs : Nat) (hbs : 0 < bs) :
    ∀ (l : List Sample) (index : Nat) (ns : List String) (ts : List Int)
      (imgs : List (List Int)),
      batchLoop bs l index ns ts imgs =
        if l.length < bs - index % bs then
          (if ns = [] ∧ l = [] then []
           else [mkBatch (ns ++ namesOf l) (ts ++ tsOf l) (imgs ++ imagesOf l)])
        else
          mkBatch (ns ++ namesOf (l.take (bs - index % bs)))
              (ts ++ tsOf (l.take (bs - index % bs)))
              (imgs ++ imagesOf (l.take (bs - index % bs)))
            :: batchLoop bs (l.drop (bs - index % bs)) 0 [] [] [] := by
  intro l
  induction l with
  | nil =>
    intro index ns ts imgs
    have hr : index % bs < bs := Nat.mod_lt index hbs
    have hk : (0 : Nat) < bs - index % bs := by omega
    simp only [batchLoop, List.length_nil, hk, if_pos, namesOf_nil, tsOf_nil,
      imagesOf_nil, List.append_nil, and_true, List.isEmpty_iff]
  | cons s rest ih =>
    intro index ns ts imgs
    have hr : index % bs < bs := Nat.mod_lt index hbs
    have h1 : (index + 1) % bs = (index % bs + 1) % bs := by
      rw [Nat.add_mod index 1 bs, Nat.add_mod (index % bs) 1 bs, Nat.mod_eq_of_lt hr]
    by_cases hflush : (index + 1) % bs = 0
    · -- the current item completes a batch: `bs - index % bs = 1`
      have hrb : index % bs + 1 = bs := by
        rcases Nat.lt_or_ge (index % bs + 1) bs with hlt | hge
        · exfalso
          rw [h1, Nat.mod_eq_of_lt hlt] at hflush
          omega
        · omega
      have hk1 : bs - index % bs = 1 := by omega
      have hcond : ¬ ((s :: rest).length < bs - index % bs) := by
        simp only [List.length_cons, hk1]
        omega
      rw [if_neg hcond]
      simp only [batchLoop, if_pos hflush, hk1, List.take_succ_cons, List.take_zero,
        List.drop_succ_cons, List.drop_zero, namesOf_cons, namesOf_nil, tsOf_cons,
        tsOf_nil, imagesOf_cons, imagesOf_nil]
      rw [batchLoop_mod bs rest (index + 1) 0 [] [] [] (by rw [hflush, Nat.zero_mod])]
    · -- mid-period item: buffer it and continue with `index + 1`
      have hlt : index % bs + 1 < bs := by
        have hle : index % bs + 1 ≤ bs := hr
        rcases eq_or_lt_of_le hle with heq | hlt
        · exfalso; apply hflush; rw [h1, heq, Nat.mod_self]
        · exact hlt
      have h2 : (index + 1) % bs = index % bs + 1 := by
        rw [h1, Nat.mod_eq_of_lt hlt]
      simp only [batchLoop, if_neg hflush]
      rw [ih (index + 1) (ns ++ [sampleName s]) (ts ++ [sampleTs s])
        (imgs ++ [sampleImage s]), h2]
      have hk' : bs - (index % bs + 1) = bs - index % bs - 1 := by omega
      rw [hk']
      by_cases hshort : rest.length < bs - index % bs - 1
      · have hshort' : (s :: rest).length < bs - index % bs := by
          simp only [List.length_cons]; omega
        rw [if_pos hshort, if_pos hshort']
        have hne : ns ++ [sampleName s] ≠ [] := by simp
        rw [if_neg (by simp [hne]), if_neg (by simp)]
        simp [List.append_assoc]
      · have hshort' : ¬ ((s :: rest).length < bs - index % bs) := by
          simp only [List.length_cons]; omega
        rw [if_neg hshort, if_neg hshort']
        have hksucc : bs - index % bs = (bs - index % bs - 1) + 1 := by omega
        rw [hksucc, List.take_succ_cons, List.drop_succ_cons]
        simp [List.append_assoc]

/-- An empty input stream yields no batches. -/
theorem batchImages_nil (bs : Nat) : batchImages [] bs = [] := rfl

/-- A non-empty stream shorter than `batch_size` yields exactly one batch
holding all of it. -/
theorem batchImages_short (bs : Nat) (hbs : 0 < bs) (l : List Sample)
    (h : l.length < bs) (hne : l ≠ []) :
    batchImages l bs = [mkBatch (namesOf l) (tsOf l) (imagesOf l)] := by
  unfold batchImages
  rw [batchLoop_eq bs hbs l 0 [] [] []]
  simp only [Nat.zero_mod, Nat.sub_zero, if_pos h]
  rw [if_neg (by simp [hne])]
  simp

/-- A stream of at least `batch_size` items yields a first full batch of the
first `batch_size` items followed by the batches of the rest. -/
theorem batchImages_long (bs : Nat) (hbs : 0 < bs) (l : List Sample)
    (h : bs ≤ l.length) :
    batchImages l bs =
      mkBatch (namesOf (l.take bs)) (tsOf (l.take bs)) (imagesOf (l.take bs))
        :: batchImages (l.drop bs) bs := by
  unfold batchImages
  rw [batchLoop_eq bs hbs l 0 [] [] []]
  simp only [Nat.zero_mod, Nat.sub_zero]
  rw [if_neg (by omega)]
  simp

@[simp] theorem namesOf_drop (n : Nat) (l : List Sample) :
    namesOf (l.drop n) = (namesOf l).drop n := by
  unfold namesOf; exact (List.map_drop _ _ _)
@[simp] theorem tsOf_drop (n : Nat) (l : List Sample) :
    tsOf (l.drop n) = (tsOf l).drop n := by
  unfold tsOf; exact (List.map_drop _ _ _)
@[simp] theorem imagesOf_drop (n : Nat) (l : List Sample) :
    imagesOf (l.drop n) = (imagesOf l).drop n := by
  unfold imagesOf; exact (List.map_drop _ _ _)

/-- The batch count is `ceil(N / batch_size)`, written `(N + bs - 1) / bs`. -/
theorem batchImages_length_aux (bs : Nat) (hbs : 0 < bs) :
    ∀ (n : Nat), ∀ (l : List Sample), l.length = n →
      (batchImages l bs).length = (l.length + bs - 1) / bs := by
  intro n
  induction n using Nat.strong_induction_on with
  | _ n ih =>
    intro l hn
    subst hn
    rcases Nat.lt_or_ge l.length bs with hlt | hge
    · rcases eq_or_ne l [] with rfl | hne
      · simp [batchImages_nil, Nat.div_eq_of_lt (show bs - 1 < bs by omega)]
      · rw [batchImages_short bs hbs l hlt hne]
        have hpos : 0 < l.length := List.length_pos.mpr hne
        have h1 : (l.length + bs - 1) / bs = 1 :=
          Nat.div_eq_of_lt_le (by omega) (by omega)
        simp [h1]
    · rw [batchImages_long bs hbs l hge]
      simp only [List.length_cons]
      have hdl : (l.drop bs).length = l.length - bs := by simp
      rw [ih (l.length - bs) (by omega) (l.drop bs) hdl, hdl]
      have he : l.length + bs - 1 = (l.length - bs + bs - 1) + bs := by omega
      rw [he, Nat.add_div_right _ hbs]

/-- Every batch but (possibly) the last is full. -/
theorem batchImages_dropLast_aux (bs : Nat) (hbs : 0 < bs) :
    ∀ (n : Nat), ∀ (l : List Sample), l.length = n →
      ∀ b ∈ (batchImages l bs).dropLast, b.names.length = bs := by
  intro n
  induction n using Nat.strong_induction_on with
  | _ n ih =>
    intro l hn
    subst hn
    rcases Nat.lt_or_ge l.length bs with hlt | hge
    · rcases eq_or_ne l [] with rfl | hne
      · simp [batchImages_nil]
      · rw [batchImages_short bs hbs l hlt hne]
        simp
    · rw [batchImages_long bs hbs l hge]
      cases hB : batchImages (l.drop bs) bs with
      | nil => simp
      | cons c cs =>
        intro b hb
        rw [List.dropLast_cons₂] at hb
        rcases List.mem_cons.mp hb with rfl | hb'
        · simp [Nat.min_eq_left hge]
        · have hdl : (l.drop bs).length = l.length - bs := by simp
          have := ih (l.length - bs) (by omega) (l.drop bs) hdl b
          rw [hB] at this
          exact this hb'

/-- The final batch holds the `((N - 1) mod bs) + 1` left-over samples. -/
theorem batchImages_getLast_aux (bs : Nat) (hbs : 0 < bs) :
    ∀ (n : Nat), ∀ (l : List Sample), l.length = n → l ≠ [] →
      ((batchImages l bs).getLast?).map (fun b => b.names.length)
        = some ((l.length - 1) % bs + 1) := by
  intro n
  induction n using Nat.strong_induction_on with
  | _ n ih =>
    intro l hn hne
    subst hn
    have hpos : 0 < l.length := List.length_pos.mpr hne
    rcases Nat.lt_or_ge l.length bs with hlt | hge
    · rw [batchImages_short bs hbs l hlt hne]
      have hm : (l.length - 1) % bs = l.length - 1 := Nat.mod_eq_of_lt (by omega)
      simp [hm]
      omega
    · rw [batchImages_long bs hbs l hge]
      cases hB : batchImages (l.drop bs) bs with
      | nil =>
        -- the tail yields nothing, so the tail stream is empty: N = bs
        have hdl : (l.drop bs).length = l.length - bs := by simp
        have hdrop : l.drop bs = [] := by
          by_contra hcon
          have := batchImages_length_aux bs hbs (l.length - bs) (l.drop bs) hdl
          rw [hB] at this
          have hp : 0 < (l.drop bs).length := List.length_pos.mpr hcon
          have h1 : (1 : Nat) ≤ ((l.drop bs).length + bs - 1) / bs :=
            (Nat.one_le_div_iff hbs).mpr (by omega)
          simp only [List.length_nil] at this
          omega
        have hNbs : l.length = bs := by
          have := List.length_pos.mpr hne
          have hd : (l.drop bs).length = 0 := by rw [hdrop]; rfl
          simp only [List.length_drop] at hd
          omega
        have hm : (l.length - 1) % bs = l.length - 1 := Nat.mod_eq_of_lt (by omega)
        simp [hm, Nat.min_eq_left hge]
        omega
      | cons c cs =>
        have hdl : (l.drop bs).length = l.length - bs := by simp
        have hdne : l.drop bs ≠ [] := by
          intro h
          rw [h, batchImages_nil] at hB
          cases hB
        have hlen : bs < l.length := by
          have : 0 < (l.drop bs).length := List.length_pos.mpr hdne
          simp only [List.length_drop] at this
          omega
        rw [List.getLast?_cons_cons]
        have := ih (l.length - bs) (by omega) (l.drop bs) hdl hdne
        rw [hB, hdl] at this
        rw [this]
        have he : l.length - 1 = (l.length - bs - 1) + bs := by omega
        rw [he, Nat.add_mod_right]

/-- Concatenating the per-field sequences of the batches reproduces the
input order exactly (identifiers, timestamps, and coerced images). -/
theorem batchImages_join_aux (bs : Nat) (hbs : 0 < bs) :
    ∀ (n : Nat), ∀ (l : List Sample), l.length = n →
      ((batchImages l bs).map Batch.names).flatten = namesOf l
      ∧ ((batchImages l bs).map Batch.tss).flatten = tsOf l
      ∧ ((batchImages l bs).map Batch.images).flatten
          = (imagesOf l).map (fun img => img.map toUInt8) := by
  intro n
  induction n using Nat.strong_induction_on with
  | _ n ih =>
    intro l hn
    subst hn
    rcases Nat.lt_or_ge l.length bs with hlt | hge
    · rcases eq_or_ne l [] with rfl | hne
      · simp [batchImages_nil]
      · rw [batchImages_short bs hbs l hlt hne]
        simp
    · rw [batchImages_long bs hbs l hge]
      have hdl : (l.drop bs).length = l.length - bs := by simp
      obtain ⟨ihn, iht, ihi⟩ := ih (l.length - bs) (by omega) (l.drop bs) hdl
      refine ⟨?_, ?_, ?_⟩
      · rw [List.map_cons, List.flatten_cons, mkBatch_names, ihn, namesOf_take,
          namesOf_drop, List.take_append_drop]
      · rw [List.map_cons, List.flatten_cons, mkBatch_tss, iht, tsOf_take,
          tsOf_drop, List.take_append_drop]
      · rw [List.map_cons, List.flatten_cons, mkBatch_images, ihi, imagesOf_take,
          imagesOf_drop, List.map_take, List.map_drop, List.take_append_drop]

/-- C1: for every finite input stream of `N ≥ 0` sample tuples and every
`batch_size ≥ 1`, `_batch_images` emits exactly `ceil(N / batch_size)`
batches (written `(N + bs - 1) / bs`); every emitted batch except possibly
the last contains exactly `batch_size` samples; when `N > 0` the last batch
contains `((N - 1) mod batch_size) + 1` samples; when `N = 0` no batch is
emitted. -/
theorem claim_C1 (l : List Sample) (bs : Nat) (hbs : 1 ≤ bs) :
    (batchImages l bs).length = (l.length + bs - 1) / bs
    ∧ (∀ b ∈ (batchImages l bs).dropLast, b.names.length = bs)
    ∧ (l ≠ [] →
        ((batchImages l bs).getLast?).map (fun b => b.names.length)
          = some ((l.length - 1) % bs + 1))
    ∧ (l = [] → batchImages l bs = []) :=
  ⟨batchImages_length_aux bs hbs l.length l rfl,
   batchImages_dropLast_aux bs hbs l.length l rfl,
   fun hne => batchImages_getLast_aux bs hbs l.length l rfl hne,
   fun he => by rw [he, batchImages_nil]⟩

def c1Samples : List Sample :=
  [("a", 0, [1]), ("b", 1, [2]), ("c", 2, [3]), ("d", 3, [300]), ("e", 4, [-1])]

theorem claim_C1_witness :
    1 ≤ 2
    ∧ ((batchImages c1Samples 2).length = (c1Samples.length + 2 - 1) / 2
      ∧ (∀ b ∈ (batchImages c1Samples 2).dropLast, b.names.length = 2)
      ∧ (c1Samples ≠ [] →
          ((batchImages c1Samples 2).getLast?).map (fun b => b.names.length)
            = some ((c1Samples.length - 1) % 2 + 1))
      ∧ (c1Samples = [] → batchImages c1Samples 2 = [])) :=
  ⟨by decide, claim_C1 c1Samples 2 (by decide)⟩

/-- C2: concatenating the identifier sequences (and likewise the
timestamp sequences) of the successive batches produced by `_batch_images`
reproduces the original input order exactly. -/
theorem claim_C2 (l : List Sample) (bs : Nat) (hbs : 1 ≤ bs) :
    ((batchImages l bs).map Batch.names).flatten = namesOf l
    ∧ ((batchImages l bs).map Batch.tss).flatten = tsOf l :=
  ⟨(batchImages_join_aux bs hbs l.length l rfl).1,
   (batchImages_join_aux bs hbs l.length l rfl).2.1⟩

def c2Samples : List Sample :=
  [("u", 10, [9]), ("v", 11, [8]), ("w", 12, [7])]

theorem claim_C2_witness :
    1 ≤ 2
    ∧ (((batchImages c2Samples 2).map Batch.names).flatten = namesOf c2Samples
      ∧ ((batchImages c2Samples 2).map Batch.tss).flatten = tsOf c2Samples) :=
  ⟨by decide, claim_C2 c2Samples 2 (by decide)⟩

/-- C9: every batch emitted by `_batch_images` has its image array
materialised with dtype `uint8`: positionally, each stacked image is the
original image with every pixel reduced modulo `2^8`, and every stored
pixel value is `< 256`. -/
theorem claim_C9 (l : List Sample) (bs : Nat) (hbs : 1 ≤ bs) :
    ((batchImages l bs).map Batch.images).flatten
      = (imagesOf l).map (fun img => img.map toUInt8)
    ∧ ∀ b ∈ batchImages l bs, ∀ img ∈ b.images, ∀ p ∈ img, p < 256 := by
  refine ⟨(batchImages_join_aux bs hbs l.length l rfl).2.2, ?_⟩
  intro b hb img himg p hp
  have hibj : img ∈ ((batchImages l bs).map Batch.images).flatten :=
    List.mem_flatten.mpr ⟨b.images, List.mem_map_of_mem _ hb, himg⟩
  rw [(batchImages_join_aux bs hbs l.length l rfl).2.2] at hibj
  rcases List.mem_map.mp hibj with ⟨orig, _, rfl⟩
  rcases List.mem_map.mp hp with ⟨x, _, rfl⟩
  unfold toUInt8
  have h1 : 0 ≤ x % 256 := Int.emod_nonneg x (by norm_num)
  have h2 : x % 256 < 256 := Int.emod_lt_of_pos x (by norm_num)
  omega

def c9Samples : List Sample :=
  [("p", 0, [300, -1]), ("q", 1, [255, 256])]

theorem claim_C9_witness :
    1 ≤ 2
    ∧ (((batchImages c9Samples 2).map Batch.images).flatten
        = (imagesOf c9Samples).map (fun img => img.map toUInt8)
      ∧ ∀ b ∈ batchImages c9Samples 2, ∀ img ∈ b.images, ∀ p ∈ img, p < 256) :=
  ⟨by decide, claim_C9 c9Samples 2 (by decide)⟩

/-! ## `Extractor.__len__` and Python `len` (C10)

`Extractor.__init__` stores `self.images = _batch_images(images, batch_size)`.
`_batch_images` is a generator function (its body contains `yield`), so the
call returns a generator object.  `Extractor.__len__` returns
`len(self.images)`. -/

/-- A Python value that can be iterated: a list (which has `__len__`) or a
generator object (which does not define `__len__`). -/
inductive PyIterable where
  | pylist (elems : List Batch)
  | generator (elems : List Batch)
deriving Repr

/-- Result of the Python built-in `len()`. -/
inductive PyLenResult where
  | ok (n : Nat)
  | typeError
deriving Repr, DecidableEq

/-- Python built-in `len(x)`: modelled from Python semantics — it calls
`type(x).__len__`; list objects provide it, generator objects do not, so
`len` of a generator raises `TypeError`. -/
def pyLen : PyIterable → PyLenResult
  | .pylist es => .ok es.length
  | .generator _ => .typeError

/-- Model of `Extractor.__init__` (extractor.py:12-13): `self.images` is the
generator object returned by calling `_batch_images(images, batch_size)`,
whose (lazily produced) elements are the batches of `batchImages`. -/
def extractorImages (images : List Sample) (batch_size : Nat) : PyIterable :=
  .generator (batchImages images batch_size)

/-- Model of `Extractor.__len__` (extractor.py:15-16): `return len(self.images)`. -/
def extractorLen (images : List Sample) (batch_size : Nat) : PyLenResult :=
  pyLen (extractorImages images batch_size)

/-- C10: for every `Extractor` instance, `len()` raises `TypeError`,
because `__len__` delegates to `len()` of the generator produced by
`_batch_images` and generators have no length; the number of batches is
never obtainable through `__len__`. -/
theorem claim_C10 (images : List Sample) (batch_size : Nat) :
    extractorLen images batch_size = .typeError := rfl

/-! ## Numeric arrays and the backend `extract_features` variants (C3)

Dense numpy/TF/caffe arrays are modelled as a shape together with the
row-major flat list of entries (entry values as integers; the claims under
study concern shapes, counts and ordering, never arithmetic on entries). -/

structure NDArray where
  shape : List Nat
  data : List Int
deriving Repr, DecidableEq, Inhabited

/-- Number of entries of one sample (one index of the first axis):
`prod(shape[1:])` — exactly the `dim` computed by
`tf.reduce_prod(tf.shape(net_output)[1:])` (extractor.py:50) and
`np.prod(feature_batch.shape[1:])` (extractor.py:220). -/
def NDArray.sampleSize (a : NDArray) : Nat := (a.shape.drop 1).prod

/-- The `i`-th slice of the array along its first axis, as the row-major
data of one sample. -/
def NDArray.row (a : NDArray) (i : Nat) : List Int :=
  (a.data.drop (i * a.sampleSize)).take a.sampleSize

/-- Iterating a numpy array (as `zip` does) yields its sub-arrays along
the first axis: `shape.head` items of shape `shape.tail`.  Modelled from
numpy iteration semantics. -/
def iterRows (a : NDArray) : List NDArray :=
  (List.range (a.shape.headD 0)).map (fun i => ⟨a.shape.drop 1, a.row i⟩)

/-- Model of `reshape(x, [-1, dim])` with `dim = prod(shape[1:])`
(extractor.py:50-51 and 220-221): the row-major data is unchanged and the
shape becomes two-dimensional, the first axis inferred from the total
entry count. -/
def reshapeAllButFirst (a : NDArray) : NDArray :=
  ⟨[a.data.length / a.sampleSize, a.sampleSize], a.data⟩

/-- A batch as consumed by `extract_features`: the tuple
`(name_batch, ts_batch, image_batch)` with the image batch a dense
`n × H × W × C` array. -/
structure XBatch where
  names : List String
  tss : List Int
  images : NDArray
deriving Repr, DecidableEq, Inhabited

/-- Model of `FeatureTuple('name', 'timestamp', 'features')` (extractor.py:8); the
`features` field keeps the shape of the per-sample array it was built
from. -/
structure FeatureTuple where
  name : String
  timestamp : Int
  features : NDArray
deriving Repr, DecidableEq, Inhabited

/-- Model of `map(FeatureTuple._make, zip(name_batch, ts_batch, feature_batch))`:
Python `zip` truncates to the shortest argument and pairs positionally. -/
def zipRecords (ns : List String) (ts : List Int) (rows : List NDArray) :
    List FeatureTuple :=
  (ns.zip (ts.zip rows)).map (fun x => ⟨x.1, x.2.1, x.2.2⟩)

/-- Model of `TensorFlowExtractor.extract_features` (extractor.py:104-112):
`session.run(self.features, ...)` evaluates the graph node
`reshape(net_output, [-1, dim])` built in `__init__` (extractor.py:49-51)
on the fed image batch; `forward` abstracts the model's forward
computation producing `net_output` for the batch. -/
def tensorFlowExtractFeatures (forward : NDArray → NDArray) (b : XBatch) :
    List FeatureTuple :=
  zipRecords b.names b.tss (iterRows (reshapeAllButFirst (forward b.images)))

/-- Model of `TensorflowHubExtractor.extract_features` (extractor.py:150-157):
`session.run(self.features, ...)` evaluates the module's selected output
on the fed batch; no reshape node is ever built, so the module output is
returned as-is.  `forward` abstracts the module computation (including the
resize/channel-reverse preprocessing graph). -/
def hubExtractFeatures (forward : NDArray → NDArray) (b : XBatch) :
    List FeatureTuple :=
  zipRecords b.names b.tss (iterRows (forward b.images))

/-- Model of `KerasExtractor.extract_features` (extractor.py:215-224): resize,
preprocess, `model.predict`, then `np.reshape(feature_batch, [-1, dim])`
with `dim = np.prod(feature_batch.shape[1:])`. -/
def kerasExtractFeatures (resize preprocess predict : NDArray → NDArray)
    (b : XBatch) : List FeatureTuple :=
  zipRecords b.names b.tss
    (iterRows (reshapeAllButFirst (predict (preprocess (resize b.images)))))

/-- A loaded caffe net: its named blobs. -/
structure CaffeNet where
  blobs : List (String × NDArray)
deriving Repr, DecidableEq, Inhabited

/-- Lookup `net.blobs[k]` (the blob's array; a missing key would raise `KeyError`
in Python — the claims below are only instantiated at present keys). -/
def lookupBlob (net : CaffeNet) (k : String) : NDArray :=
  ((net.blobs.find? (fun p => p.1 == k)).map Prod.snd).getD ⟨[], []⟩

def setBlob (net : CaffeNet) (k : String) (a : NDArray) : CaffeNet :=
  ⟨net.blobs.map (fun p => if p.1 == k then (p.1, a) else p)⟩

/-- Model of `CaffeExtractor.extract_features` (extractor.py:259-272): reshape the
`data` blob to the current batch size, preprocess each image with the
transformer, write the stacked result into the `data` blob, run the
forward pass (`forwardFn`, abstracting `self.net.forward()`), then read
`self.net.blobs[self.layer].data` and zip it — **without any reshape** —
with the names and timestamps.  Returns the updated net (the net is
instance state mutated in place in Python) and the records. -/
def caffeExtractFeatures (layer : String) (preprocessFn : NDArray → NDArray)
    (forwardFn : CaffeNet → CaffeNet) (net : CaffeNet) (b : XBatch) :
    CaffeNet × List FeatureTuple :=
  let shape := (lookupBlob net "data").shape
  let n := b.images.shape.headD 0
  let net1 := setBlob net "data" ⟨n :: shape.drop 1, []⟩
  let processed := (iterRows b.images).map preprocessFn
  let net2 := setBlob net1 "data"
    ⟨(lookupBlob net1 "data").shape, (processed.map NDArray.data).flatten⟩
  let net3 := forwardFn net2
  let feature_batch := lookupBlob net3 layer
  (net3, zipRecords b.names b.tss (iterRows feature_batch))

@[simp] theorem zipRecords_nil_left (ts : List Int) (rows : List NDArray) :
    zipRecords [] ts rows = [] := rfl
@[simp] theorem zipRecords_cons (a : String) (t : Int) (r : NDArray)
    (ns : List String) (ts : List Int) (rows : List NDArray) :
    zipRecords (a :: ns) (t :: ts) (r :: rows)
      = ⟨a, t, r⟩ :: zipRecords ns ts rows := rfl

/-- Structure of `zipRecords` when all three sequences have length `n`. -/
theorem zipRecords_spec :
    ∀ (n : Nat) (ns : List String) (ts : List Int) (rows : List NDArray),
      ns.length = n → ts.length = n → rows.length = n →
      (zipRecords ns ts rows).length = n
      ∧ (zipRecords ns ts rows).map FeatureTuple.name = ns
      ∧ (zipRecords ns ts rows).map FeatureTuple.timestamp = ts
      ∧ ∀ r ∈ zipRecords ns ts rows, r.features ∈ rows := by
  intro n
  induction n with
  | zero =>
    intro ns ts rows h1 h2 h3
    rw [List.length_eq_zero] at h1 h2 h3
    subst h1; subst h2; subst h3
    simp
  | succ m ih =>
    intro ns ts rows h1 h2 h3
    rcases ns with _ | ⟨a, ns⟩
    · simp at h1
    rcases ts with _ | ⟨t, ts⟩
    · simp at h2
    rcases rows with _ | ⟨r, rows⟩
    · simp at h3
    have h1' : ns.length = m := by simpa using h1
    have h2' : ts.length = m := by simpa using h2
    have h3' : rows.length = m := by simpa using h3
    obtain ⟨l1, l2, l3, l4⟩ := ih ns ts rows h1' h2' h3'
    refine ⟨by simp [l1], by simp [l2], by simp [l3], ?_⟩
    intro x hx
    rcases List.mem_cons.mp hx with rfl | hx'
    · exact List.mem_cons_self _ _
    · exact List.mem_cons_of_mem _ (l4 x hx')

theorem iterRows_length (a : NDArray) (n : Nat) (s : List Nat)
    (h : a.shape = n :: s) : (iterRows a).length = n := by
  simp [iterRows, h]

theorem iterRows_shape (a : NDArray) (n : Nat) (s : List Nat)
    (h : a.shape = n :: s) : ∀ r ∈ iterRows a, r.shape = s := by
  intro r hr
  rcases List.mem_map.mp hr with ⟨i, _, rfl⟩
  simp [h]

theorem reshapeAllButFirst_shape (a : NDArray) (n : Nat) (s : List Nat)
    (hsh : a.shape = n :: s) (hd : a.data.length = n * s.prod)
    (hp : 0 < s.prod) : (reshapeAllButFirst a).shape = [n, s.prod] := by
  unfold reshapeAllButFirst NDArray.sampleSize
  rw [hsh, hd]
  simp [Nat.mul_div_cancel _ hp]

/-- Records built from a flattened (`reshape [-1, dim]`) feature batch:
there are `n` of them, positionally paired with names and timestamps, and
every per-sample feature array is one-dimensional of dimension
`prod(s)`. -/
theorem flatRecords_spec (A : NDArray) (ns : List String) (ts : List Int)
    (n : Nat) (s : List Nat) (h1 : ns.length = n) (h2 : ts.length = n)
    (hsh : A.shape = n :: s) (hd : A.data.length = n * s.prod)
    (hp : 0 < s.prod) :
    (zipRecords ns ts (iterRows (reshapeAllButFirst A))).length = n
    ∧ (zipRecords ns ts (iterRows (reshapeAllButFirst A))).map
        FeatureTuple.name = ns
    ∧ (zipRecords ns ts (iterRows (reshapeAllButFirst A))).map
        FeatureTuple.timestamp = ts
    ∧ ∀ r ∈ zipRecords ns ts (iterRows (reshapeAllButFirst A)),
        r.features.shape = [s.prod] := by
  have hsh2 := reshapeAllButFirst_shape A n s hsh hd hp
  have hlen := iterRows_length (reshapeAllButFirst A) n [s.prod] hsh2
  obtain ⟨z1, z2, z3, z4⟩ := zipRecords_spec n ns ts _ h1 h2 hlen
  exact ⟨z1, z2, z3,
    fun r hr => iterRows_shape _ n [s.prod] hsh2 _ (z4 r hr)⟩

/-- Records built from an unreshaped feature batch: `n` records paired in
order, each per-sample feature array keeping the multi-dimensional shape
`s` of the layer output. -/
theorem rawRecords_spec (A : NDArray) (ns : List String) (ts : List Int)
    (n : Nat) (s : List Nat) (h1 : ns.length = n) (h2 : ts.length = n)
    (hsh : A.shape = n :: s) :
    (zipRecords ns ts (iterRows A)).length = n
    ∧ (zipRecords ns ts (iterRows A)).map FeatureTuple.name = ns
    ∧ (zipRecords ns ts (iterRows A)).map FeatureTuple.timestamp = ts
    ∧ ∀ r ∈ zipRecords ns ts (iterRows A), r.features.shape = s := by
  have hlen := iterRows_length A n s hsh
  obtain ⟨z1, z2, z3, z4⟩ := zipRecords_spec n ns ts _ h1 h2 hlen
  exact ⟨z1, z2, z3, fun r hr => iterRows_shape A n s hsh _ (z4 r hr)⟩

/-- C3 (amended): the graph-based (`TensorFlowExtractor`) and
named-architecture (`KerasExtractor`) variants return, for a batch of `n`
samples, exactly `n` feature records positionally paired with the batch's
identifiers and timestamps, each per-sample output reshaped to a flat
one-dimensional vector of fixed dimension `prod(shape[1:])`.  The
prepackaged-module (`TensorflowHubExtractor`) and legacy
(`CaffeExtractor`) variants also return `n` positionally paired records,
but hand back the model output's per-sample sub-arrays **unreshaped**,
keeping their original shape `s`. -/
theorem claim_C3 :
    (∀ (forward : NDArray → NDArray) (b : XBatch) (n : Nat) (s : List Nat),
      b.names.length = n → b.tss.length = n →
      (forward b.images).shape = n :: s →
      (forward b.images).data.length = n * s.prod → 0 < s.prod →
        (tensorFlowExtractFeatures forward b).length = n
        ∧ (tensorFlowExtractFeatures forward b).map FeatureTuple.name = b.names
        ∧ (tensorFlowExtractFeatures forward b).map FeatureTuple.timestamp = b.tss
        ∧ ∀ r ∈ tensorFlowExtractFeatures forward b, r.features.shape = [s.prod])
    ∧ (∀ (resize preprocess predict : NDArray → NDArray) (b : XBatch)
        (n : Nat) (s : List Nat),
      b.names.length = n → b.tss.length = n →
      (predict (preprocess (resize b.images))).shape = n :: s →
      (predict (preprocess (resize b.images))).data.length = n * s.prod →
      0 < s.prod →
        (kerasExtractFeatures resize preprocess predict b).length = n
        ∧ (kerasExtractFeatures resize preprocess predict b).map
            FeatureTuple.name = b.names
        ∧ (kerasExtractFeatures resize preprocess predict b).map
            FeatureTuple.timestamp = b.tss
        ∧ ∀ r ∈ kerasExtractFeatures resize preprocess predict b,
            r.features.shape = [s.prod])
    ∧ (∀ (forward : NDArray → NDArray) (b : XBatch) (n : Nat) (s : List Nat),
      b.names.length = n → b.tss.length = n →
      (forward b.images).shape = n :: s →
        (hubExtractFeatures forward b).length = n
        ∧ (hubExtractFeatures forward b).map FeatureTuple.name = b.names
        ∧ (hubExtractFeatures forward b).map FeatureTuple.timestamp = b.tss
        ∧ ∀ r ∈ hubExtractFeatures forward b, r.features.shape = s)
    ∧ (∀ (layer : String) (pre : NDArray → NDArray) (fwd : CaffeNet → CaffeNet)
        (net : CaffeNet) (b : XBatch) (n : Nat) (s : List Nat),
      b.names.length = n → b.tss.length = n →
      (lookupBlob (caffeExtractFeatures layer pre fwd net b).1 layer).shape
        = n :: s →
        ((caffeExtractFeatures layer pre fwd net b).2).length = n
        ∧ ((caffeExtractFeatures layer pre fwd net b).2).map
            FeatureTuple.name = b.names
        ∧ ((caffeExtractFeatures layer pre fwd net b).2).map
            FeatureTuple.timestamp = b.tss
        ∧ ∀ r ∈ (caffeExtractFeatures layer pre fwd net b).2,
            r.features.shape = s) := by
  refine ⟨?_, ?_, ?_, ?_⟩
  · intro forward b n s h1 h2 hsh hd hp
    exact flatRecords_spec (forward b.images) b.names b.tss n s h1 h2 hsh hd hp
  · intro resize preprocess predict b n s h1 h2 hsh hd hp
    exact flatRecords_spec (predict (preprocess (resize b.images)))
      b.names b.tss n s h1 h2 hsh hd hp
  · intro forward b n s h1 h2 hsh
    exact rawRecords_spec (forward b.images) b.names b.tss n s h1 h2 hsh
  · intro layer pre fwd net b n s h1 h2 hsh
    exact rawRecords_spec
      (lookupBlob (caffeExtractFeatures layer pre fwd net b).1 layer)
      b.names b.tss n s h1 h2 hsh

/-- Concrete caffe net for the C3 counterexample: a `data` blob and a
`conv` layer blob whose per-sample output is 2 × 2 (not flat). -/
def c3Net : CaffeNet :=
  ⟨[("data", ⟨[1, 3, 2, 2], List.replicate 12 0⟩),
    ("conv", ⟨[1, 2, 2], [0, 0, 0, 0]⟩)]⟩

/-- Concrete forward pass: fills the `conv` blob with a 1 × 2 × 2 result. -/
def c3Fwd (net : CaffeNet) : CaffeNet := setBlob net "conv" ⟨[1, 2, 2], [5, 6, 7, 8]⟩

def c3Batch : XBatch := ⟨["a"], [0], ⟨[1, 2, 2, 3], List.replicate 12 1⟩⟩

/-- C3 is false as stated for the legacy (`CaffeExtractor`) variant:
on a concrete batch whose selected layer produces a 2 × 2 per-sample
output, the returned record's feature array is *not* a flat
one-dimensional vector — `extract_features` reads
`self.net.blobs[self.layer].data` without any reshape. -/
theorem claim_C3_counterexample :
    ¬ (∀ r ∈ (caffeExtractFeatures "conv" (fun a => a) c3Fwd c3Net c3Batch).2,
        r.features.shape.length = 1) := by decide

def c3wForward (_ : NDArray) : NDArray := ⟨[2, 3], [1, 2, 3, 4, 5, 6]⟩

def c3wBatch : XBatch := ⟨["a", "b"], [0, 1], ⟨[2, 2, 2, 3], List.replicate 24 0⟩⟩

theorem claim_C3_witness :
    (tensorFlowExtractFeatures c3wForward c3wBatch).length = 2
    ∧ (tensorFlowExtractFeatures c3wForward c3wBatch).map
        FeatureTuple.name = c3wBatch.names
    ∧ (tensorFlowExtractFeatures c3wForward c3wBatch).map
        FeatureTuple.timestamp = c3wBatch.tss
    ∧ ∀ r ∈ tensorFlowExtractFeatures c3wForward c3wBatch,
        r.features.shape = [List.prod [3]] :=
  claim_C3.1 c3wForward c3wBatch 2 [3] (by decide) (by decide) (by decide)
    (by decide) (by decide)

/-! ## Python string utilities (substring test, `repr`, `sorted`) -/

/-- The single-quote character used by Python `repr` of strings. -/
def sq : String := String.singleton (Char.ofNat 39)

/-- Python `str(list_of_strings)`: each element single-quoted,
separated by a comma and a space, in square brackets.  Modelled from
Python repr semantics. -/
def pyStrListRepr (l : List String) : String :=
  "[" ++ String.intercalate ", " (l.map (fun s => sq ++ s ++ sq)) ++ "]"

/-- Python's `pat in s` substring test: some drop-position of `s` starts
with `pat`. -/
def strContains (s pat : String) : Bool :=
  (List.range (s.data.length + 1)).any
    (fun i => pat.data.isPrefixOf (s.data.drop i))

theorem isPrefixOfIff {α : Type} [DecidableEq α] :
    ∀ (l m : List α), l.isPrefixOf m = true ↔ l <+: m
  | [], m => by simp [List.isPrefixOf]
  | a :: l, [] => by simp [List.isPrefixOf]
  | a :: l, b :: m => by
    simp only [List.isPrefixOf, Bool.and_eq_true, beq_iff_eq,
      List.cons_prefix_cons]
    rw [isPrefixOfIff l m]

/-- The function `strContains` decides substring (list-infix) containment. -/
theorem strContains_iff (s pat : String) :
    strContains s pat = true ↔ pat.data <:+: s.data := by
  unfold strContains
  rw [List.any_eq_true]
  constructor
  · rintro ⟨i, _, hp⟩
    rcases (isPrefixOfIff _ _).mp hp with ⟨t, ht⟩
    exact ⟨s.data.take i, t, by rw [List.append_assoc, ht, List.take_append_drop]⟩
  · rintro ⟨a, b, hab⟩
    refine ⟨a.length, List.mem_range.mpr ?_, ?_⟩
    · have : s.data.length = (a ++ pat.data ++ b).length := by rw [hab]
      simp only [List.length_append] at this
      omega
    · have hdrop : s.data.drop a.length = pat.data ++ b := by
        rw [← hab, List.append_assoc, List.drop_left]
      rw [hdrop]
      exact (isPrefixOfIff _ _).mpr ⟨b, rfl⟩

theorem strContains_of_eq_append (s a p b : String) (h : s = a ++ p ++ b) :
    strContains s p = true := by
  rw [strContains_iff, h]
  exact ⟨a.data, b.data, by simp [String.data_append]⟩

def charListLe : List Char → List Char → Bool
  | [], _ => true
  | _ :: _, [] => false
  | c :: cs, d :: ds =>
    if c.toNat < d.toNat then true
    else if d.toNat < c.toNat then false
    else charListLe cs ds

def insertSorted (x : String) : List String → List String
  | [] => [x]
  | y :: ys => if charListLe x.data y.data then x :: y :: ys
               else y :: insertSorted x ys

/-- Modelled from Python `sorted` on strings: ascending lexicographic
order by code point (insertion sort; the inputs here are dict keys, hence
pairwise distinct, so stability is irrelevant). -/
def sortStrings : List String → List String
  | [] => []
  | x :: xs => insertSorted x (sortStrings xs)

/-! ## Layer discovery of the graph-based variant (C5) -/

/-- The list `ignored_tensor_endings` (extractor.py:89-90). -/
def ignoredTensorEndings : List String :=
  ["weights", "bias", "MatMul", "BiasAdd", "read", "size", "prob", "stack",
   "strided_slice", "shape", "axis", "input", "concat", "Conv2D", "split",
   "norm"]

/-- Model of `TensorFlowExtractor.__ignore_tensor` (extractor.py:88-91):
`any(ending in tensor_name for ending in ignored_tensor_endings)` — a
**substring** (`in`) test over the whole name, not a suffix test. -/
def ignoreTensor (tensor_name : String) : Bool :=
  ignoredTensorEndings.any (fun e => strContains tensor_name e)

/-- The trailing `/`-segment of a name: the accumulator collects the
current segment (reversed) and is reset on every `/`. -/
def lastSegmentChars : List Char → List Char → List Char
  | [], acc => acc.reverse
  | c :: rest, acc =>
    if c = '/' then lastSegmentChars rest [] else lastSegmentChars rest (c :: acc)

/-- The layer label of an operation name: `__input_and_layers` computes
`tensor_name.split('/')[-1][:-2]` for `tensor_name = op.name + ':0'`,
i.e. the trailing `/`-segment of the operation name. -/
def layerLabelOf (opName : String) : String :=
  ⟨lastSegmentChars opName.data []⟩

/-- The list `tensor_names` (extractor.py:67): the non-ignored operation names with
`:0` appended. -/
def tfTensorNames (opNames : List String) : List String :=
  (opNames.filter (fun n => !ignoreTensor n)).map (fun n => n ++ ":0")

/-- The label sequence of the `layer_dict` comprehension
(extractor.py:78-79), duplicates included in comprehension order. -/
def tfLayerLabels (opNames : List String) : List String :=
  (opNames.filter (fun n => !ignoreTensor n)).map layerLabelOf

/-- Python dict key order: first occurrence kept, later duplicates merged
into the existing key.  Modelled from Python dict semantics. -/
def pyDictKeys : List String → List String
  | [] => []
  | x :: xs => x :: (pyDictKeys xs).filter (fun y => y != x)

/-- The keys of `layer_dict`: the available layer labels. -/
def tfLayers (opNames : List String) : List String :=
  pyDictKeys (tfLayerLabels opNames)

theorem mem_pyDictKeys (y : String) :
    ∀ l : List String, y ∈ pyDictKeys l ↔ y ∈ l := by
  intro l
  induction l with
  | nil => simp [pyDictKeys]
  | cons x xs ih =>
    simp only [pyDictKeys, List.mem_cons, List.mem_filter]
    constructor
    · rintro (rfl | ⟨hy, _⟩)
      · exact Or.inl rfl
      · exact Or.inr (ih.mp hy)
    · rintro (rfl | hy)
      · exact Or.inl rfl
      · by_cases hxy : y = x
        · exact Or.inl hxy
        · exact Or.inr ⟨ih.mpr hy, by simp [bne_iff_ne, hxy]⟩

/-- Modelled from the spec: "exclude those whose names **end in** known
non-output suffixes" — a suffix test, for comparison with the code's
substring test. -/
def endsInIgnoredSuffix (n : String) : Bool :=
  ignoredTensorEndings.any (fun e => e.data.isSuffixOf n.data)

/-- Modelled from the spec: the layer labels as the spec words describe
them — keep the nodes whose names do not end in an ignored suffix, label
each by its trailing name segment. -/
def specTfLayers (opNames : List String) : List String :=
  (opNames.filter (fun n => !endsInIgnoredSuffix n)).map layerLabelOf

/-- C5 (amended): layer discovery enumerates the named computation
nodes and excludes exactly those whose names **contain** one of the known
non-output strings anywhere in the name (Python `in`, i.e. substring
containment — not a suffix test), mapping each remaining node to the
trailing segment of its name as its layer label. -/
theorem claim_C5 (opNames : List String) (lbl : String) :
    lbl ∈ tfLayers opNames ↔
      ∃ op ∈ opNames,
        (¬ ∃ e ∈ ignoredTensorEndings, e.data <:+: op.data)
        ∧ layerLabelOf op = lbl := by
  rw [tfLayers, mem_pyDictKeys, tfLayerLabels, List.mem_map]
  constructor
  · rintro ⟨op, hmem, rfl⟩
    rw [List.mem_filter] at hmem
    refine ⟨op, hmem.1, ?_, rfl⟩
    rintro ⟨e, he, hinf⟩
    have hig : ignoreTensor op = true :=
      List.any_eq_true.mpr ⟨e, he, (strContains_iff _ _).mpr hinf⟩
    have := hmem.2
    rw [hig] at this
    cases this
  · rintro ⟨op, hop, hno, rfl⟩
    refine ⟨op, List.mem_filter.mpr ⟨hop, ?_⟩, rfl⟩
    rw [Bool.not_eq_true']
    rcases h : ignoreTensor op with _ | _
    · rfl
    · exfalso
      rcases List.any_eq_true.mp h with ⟨e, he, hc⟩
      exact hno ⟨e, he, (strContains_iff _ _).mp hc⟩

/-- C5 is false as stated: `net/conv_weights_t` merely *contains* the
string `weights` (it ends in `_t`, not in any listed suffix), yet the code
excludes it; the spec-worded suffix rule would keep it.  So the excluded
set is not "exactly those nodes whose names end in a non-output suffix". -/
theorem claim_C5_counterexample :
    ignoreTensor "net/conv_weights_t" = true
    ∧ endsInIgnoredSuffix "net/conv_weights_t" = false
    ∧ tfLayers ["net/relu1", "net/conv_weights_t"] = ["relu1"]
    ∧ specTfLayers ["net/relu1", "net/conv_weights_t"]
        = ["relu1", "conv_weights_t"] := by decide

/-! ## Backend construction and layer validation (C4, C6) -/

/-- Class `\w` of the Python `re` module (ASCII mode as used here):
alphanumeric or underscore. -/
def isWordChar (c : Char) : Bool := c.isAlphanum || c == '_'

/-- The leading run of characters satisfying `p`: the group captured by
`re.match(r'^(\w+)/*', name)` when `p = isWordChar` (empty when the match
fails). -/
def takeWhileChars (p : Char → Bool) : List Char → List Char
  | [] => []
  | c :: rest => if p c then c :: takeWhileChars p rest else []

def leadingWordChars (s : String) : String := ⟨takeWhileChars isWordChar s.data⟩

structure TFState where
  layers : List String
  selectedLayer : String
deriving Repr, DecidableEq, Inhabited

/-- The `assert` message of `TensorFlowExtractor.__init__`
(extractor.py:47-48): `'{}' is not a valid layer. Available layers are:
{sorted(list(self.layers.keys()))}`. -/
def tfAssertMsg (layer : String) (layers : List String) : String :=
  sq ++ layer ++ sq ++ " is not a valid layer. Available layers are: "
    ++ pyStrListRepr (sortStrings layers)

/-- Model of `TensorFlowExtractor.__init__` + `__input_and_layers`
(extractor.py:40-51, 66-86) restricted to its control flow on names: build
`tensor_names` (raising `IndexError` on `tensor_names[0]` when empty),
match the leading word characters of the first tensor name (a failed match
raises `AttributeError` on `.group`), look up the `<pfx>/input:0` tensor
(`KeyError` when the graph has no such operation), then `assert
self.layer in self.layers`. -/
def tensorFlowInit (opNames : List String) (layer : String) :
    Except String TFState :=
  match tfTensorNames opNames with
  | [] => .error "IndexError: list index out of range"
  | t0 :: _ =>
    let pfx := leadingWordChars t0
    if pfx = "" then
      .error "AttributeError: NoneType object has no attribute group"
    else if (pfx ++ "/input") ∈ opNames then
      if layer ∈ tfLayers opNames then .ok ⟨tfLayers opNames, layer⟩
      else .error (tfAssertMsg layer (tfLayers opNames))
    else .error "KeyError: input tensor not found"

structure KerasState where
  layers : List String
  selectedLayer : String
deriving Repr, DecidableEq, Inhabited

/-- The `assert` message of `KerasExtractor.__init__` (extractor.py:208):
`f'Invalid layer key. Available layers: {self.layers}'` — it does **not**
mention the offending layer name and does **not** sort the list. -/
def kerasAssertMsg (layers : List String) : String :=
  "Invalid layer key. Available layers: " ++ pyStrListRepr layers

/-- Model of `KerasExtractor.__init__` (extractor.py:177-213) restricted to layer
validation: `self.layers = [layer.name for layer in base_model.layers]`
then `assert layer in self.layers`. -/
def kerasInit (modelLayers : List String) (layer : String) :
    Except String KerasState :=
  if layer ∈ modelLayers then .ok ⟨modelLayers, layer⟩
  else .error (kerasAssertMsg modelLayers)

/-- State of a constructed `TensorflowHubExtractor`: when the requested
layer is absent, `self.features` and `self.session` are never assigned —
the instance is silently not ready. -/
structure HubState where
  layers : List String
  featuresLayer : Option String
  sessionStarted : Bool
deriving Repr, DecidableEq, Inhabited

/-- Model of `TensorflowHubExtractor.__init__` (extractor.py:122-141): inside
`if self.layer in self.__layers:` the features tensor is selected and the
session created and initialised; there is **no** `else` branch and no
`assert`, so an absent layer leaves the instance constructed but
not ready.  Construction never raises for an absent layer. -/
def hubInit (moduleLayers : List String) (layer : String) :
    Except String HubState :=
  if layer ∈ moduleLayers then .ok ⟨moduleLayers, some layer, true⟩
  else .ok ⟨moduleLayers, none, false⟩

structure CaffeInitState where
  layers : List String
  selectedLayer : String
deriving Repr, DecidableEq, Inhabited

/-- Model of `CaffeExtractor.__init__` (extractor.py:233-257): stores
`self.layer = layer` and `self.layers = list(self.net.blobs.keys())` and
performs **no** membership check at all. -/
def caffeInit (blobNames : List String) (layer : String) :
    Except String CaffeInitState :=
  .ok ⟨blobNames, layer⟩

/-- C4 (amended): only the graph-based (`TensorFlowExtractor`, via
`assert`) and named-architecture (`KerasExtractor`, via `assert`) variants
fail at construction time when the requested layer is absent.  The
prepackaged-module (`TensorflowHubExtractor`) variant raises nothing and
silently enters a not-ready state (no features tensor, no session), and
the legacy (`CaffeExtractor`) variant performs no layer validation at
construction at all. -/
theorem claim_C4 :
    (∀ (opNames : List String) (layer : String),
      tfTensorNames opNames ≠ [] →
      leadingWordChars ((tfTensorNames opNames).headD "") ≠ "" →
      (leadingWordChars ((tfTensorNames opNames).headD "") ++ "/input")
        ∈ opNames →
      layer ∉ tfLayers opNames →
        tensorFlowInit opNames layer
          = .error (tfAssertMsg layer (tfLayers opNames)))
    ∧ (∀ (modelLayers : List String) (layer : String), layer ∉ modelLayers →
        kerasInit modelLayers layer = .error (kerasAssertMsg modelLayers))
    ∧ (∀ (moduleLayers : List String) (layer : String), layer ∉ moduleLayers →
        hubInit moduleLayers layer = .ok ⟨moduleLayers, none, false⟩)
    ∧ (∀ (blobNames : List String) (layer : String),
        caffeInit blobNames layer = .ok ⟨blobNames, layer⟩) := by
  refine ⟨?_, ?_, ?_, ?_⟩
  · intro ops layer hne hpfx hinput hlayer
    unfold tensorFlowInit
    split
    · next heq => exact absurd heq hne
    · next t0 rest heq =>
      rw [heq] at hpfx hinput
      simp only [List.headD_cons] at hpfx hinput
      rw [if_neg hpfx, if_pos hinput, if_neg hlayer]
  · intro ls layer h
    unfold kerasInit
    rw [if_neg h]
  · intro ls layer h
    unfold hubInit
    rw [if_neg h]
  · intro ls layer
    rfl

/-- C4 is false as stated for the prepackaged-module variant: with the
requested layer absent from the module's outputs, `hubInit` returns a
successfully constructed instance with no features tensor and no session
(a silent not-ready state) instead of failing; and the legacy variant
accepts any layer name at construction without validation. -/
theorem claim_C4_counterexample :
    ("missing" ∉ (["default"] : List String))
    ∧ hubInit ["default"] "missing" = .ok ⟨["default"], none, false⟩
    ∧ ("bogus" ∉ (["data", "fc7"] : List String))
    ∧ caffeInit ["data", "fc7"] "bogus" = .ok ⟨["data", "fc7"], "bogus"⟩ := by
  refine ⟨by decide, ?_, by decide, rfl⟩
  unfold hubInit
  rw [if_neg (by decide)]

def c4Ops : List String := ["extractor/input", "extractor/fc7/relu7"]

theorem claim_C4_witness :
    tensorFlowInit c4Ops "bogus" = .error (tfAssertMsg "bogus" (tfLayers c4Ops))
    ∧ kerasInit ["fc1"] "zzz" = .error (kerasAssertMsg ["fc1"])
    ∧ hubInit ["feat"] "zzz" = .ok ⟨["feat"], none, false⟩
    ∧ caffeInit ["data"] "zzz" = .ok ⟨["data"], "zzz"⟩ :=
  ⟨claim_C4.1 c4Ops "bogus" (by decide) (by decide) (by decide) (by decide),
   claim_C4.2.1 ["fc1"] "zzz" (by decide),
   claim_C4.2.2.1 ["feat"] "zzz" (by decide),
   claim_C4.2.2.2 ["data"] "zzz"⟩

theorem tfAssertMsg_contains_layer (layer : String) (L : List String) :
    strContains (tfAssertMsg layer L) layer = true := by
  rw [strContains_iff]
  refine ⟨sq.data,
    (sq ++ " is not a valid layer. Available layers are: ").data
      ++ (pyStrListRepr (sortStrings L)).data, ?_⟩
  simp [tfAssertMsg, String.data_append, List.append_assoc]

theorem tfAssertMsg_contains_sorted (layer : String) (L : List String) :
    strContains (tfAssertMsg layer L) (pyStrListRepr (sortStrings L))
      = true := by
  rw [strContains_iff]
  refine ⟨(sq ++ layer ++ sq
    ++ " is not a valid layer. Available layers are: ").data, [], ?_⟩
  simp [tfAssertMsg, String.data_append, List.append_assoc]

theorem kerasAssertMsg_contains_list (L : List String) :
    strContains (kerasAssertMsg L) (pyStrListRepr L) = true := by
  rw [strContains_iff]
  refine ⟨("Invalid layer key. Available layers: " : String).data, [], ?_⟩
  simp [kerasAssertMsg, String.data_append, List.append_assoc]

/-- C6 (amended): when construction fails for an absent layer, only
the graph-based variant's error message includes both the offending layer
name and the full sorted list of valid layer names.  The
named-architecture variant's message contains the available-layer list in
model order (unsorted) and omits the offending layer name, and the other
two variants raise no construction error at all for an absent layer. -/
theorem claim_C6 :
    (∀ (opNames : List String) (layer : String),
      tfTensorNames opNames ≠ [] →
      leadingWordChars ((tfTensorNames opNames).headD "") ≠ "" →
      (leadingWordChars ((tfTensorNames opNames).headD "") ++ "/input")
        ∈ opNames →
      layer ∉ tfLayers opNames →
        tensorFlowInit opNames layer
          = .error (tfAssertMsg layer (tfLayers opNames))
        ∧ strContains (tfAssertMsg layer (tfLayers opNames)) layer = true
        ∧ strContains (tfAssertMsg layer (tfLayers opNames))
            (pyStrListRepr (sortStrings (tfLayers opNames))) = true)
    ∧ (∀ (modelLayers : List String) (layer : String), layer ∉ modelLayers →
        kerasInit modelLayers layer = .error (kerasAssertMsg modelLayers)
        ∧ strContains (kerasAssertMsg modelLayers)
            (pyStrListRepr modelLayers) = true) := by
  constructor
  · intro ops layer hne hpfx hinput hlayer
    refine ⟨?_, tfAssertMsg_contains_layer layer (tfLayers ops),
      tfAssertMsg_contains_sorted layer (tfLayers ops)⟩
    unfold tensorFlowInit
    split
    · next heq => exact absurd heq hne
    · next t0 rest heq =>
      rw [heq] at hpfx hinput
      simp only [List.headD_cons] at hpfx hinput
      rw [if_neg hpfx, if_pos hinput, if_neg hlayer]
  · intro ls layer h
    exact ⟨by unfold kerasInit; rw [if_neg h], kerasAssertMsg_contains_list ls⟩

/-- C6 is false as stated for the named-architecture variant: with
model layers `['fc2', 'fc1']` and requested layer `zzz`, the assert
message is `Invalid layer key. Available layers: ['fc2', 'fc1']` — it
does not contain the offending layer name `zzz`, and the list it shows is
the unsorted model order, not the sorted list. -/
theorem claim_C6_counterexample :
    kerasInit ["fc2", "fc1"] "zzz" = .error (kerasAssertMsg ["fc2", "fc1"])
    ∧ strContains (kerasAssertMsg ["fc2", "fc1"]) "zzz" = false
    ∧ pyStrListRepr ["fc2", "fc1"] ≠ pyStrListRepr (sortStrings ["fc2", "fc1"])
    ∧ strContains (kerasAssertMsg ["fc2", "fc1"])
        (pyStrListRepr (sortStrings ["fc2", "fc1"])) = false := by
  refine ⟨?_, by decide, by decide, by decide⟩
  unfold kerasInit
  rw [if_neg (by decide)]

def c6Ops : List String := ["net/input", "net/fc8", "net/fc7"]

theorem claim_C6_witness :
    (tensorFlowInit c6Ops "bogus" = .error (tfAssertMsg "bogus" (tfLayers c6Ops))
      ∧ strContains (tfAssertMsg "bogus" (tfLayers c6Ops)) "bogus" = true
      ∧ strContains (tfAssertMsg "bogus" (tfLayers c6Ops))
          (pyStrListRepr (sortStrings (tfLayers c6Ops))) = true)
    ∧ (kerasInit ["b2", "a1"] "zz" = .error (kerasAssertMsg ["b2", "a1"])
      ∧ strContains (kerasAssertMsg ["b2", "a1"])
          (pyStrListRepr ["b2", "a1"]) = true) :=
  ⟨claim_C6.1 c6Ops "bogus" (by decide) (by decide) (by decide) (by decide),
   claim_C6.2 ["b2", "a1"] "zz" (by decide)⟩

/-! ## The legacy variant's image preprocessing (C7)

For the preprocessing claims the image needs its spatial structure: an
`Image3` is an `H × W × C` nested array of pixel values.  The
`caffe.io.Transformer` is modelled from the caffe library: `preprocess`
applies, in order, the configured transpose, channel swap, raw scale and
mean subtraction (only the operations that were `set_...` are applied). -/

abbrev Image3 := List (List (List Int))

def get3 (img : Image3) (i j k : Nat) : Int :=
  ((img.getD i []).getD j []).getD k 0

def dim0 (img : Image3) : Nat := img.length
def dim1 (img : Image3) : Nat := (img.headD []).length
def dim2 (img : Image3) : Nat := ((img.headD []).headD []).length

def dimOf (img : Image3) (t : Nat) : Nat :=
  if t = 0 then dim0 img else if t = 1 then dim1 img else dim2 img

/-- Index relation `j (p k) = i k`: the input index on `axis` for output index
`(i0, i1, i2)` under `transpose(axes = (p0, p1, p2))`. -/
def sel3 (p0 p1 p2 i0 i1 i2 axis : Nat) : Nat :=
  if p0 = axis then i0 else if p1 = axis then i1 else i2

/-- numpy `transpose(axes = (p0, p1, p2))` on a 3-D array: output axis `k`
has the extent of input axis `p k` and `out[i0, i1, i2] = in[j0, j1, j2]`
with `j (p k) = i k`.  Modelled from numpy semantics. -/
def applyTranspose (p0 p1 p2 : Nat) (img : Image3) : Image3 :=
  (List.range (dimOf img p0)).map (fun i0 =>
    (List.range (dimOf img p1)).map (fun i1 =>
      (List.range (dimOf img p2)).map (fun i2 =>
        get3 img (sel3 p0 p1 p2 i0 i1 i2 0) (sel3 p0 p1 p2 i0 i1 i2 1)
          (sel3 p0 p1 p2 i0 i1 i2 2))))

/-- caffe.io channel swap: `data = data[swap, :, :]` reindexes the first
axis by the configured 3-tuple. -/
def applySwap (s0 s1 s2 : Nat) (img : Image3) : Image3 :=
  [img.getD s0 [], img.getD s1 [], img.getD s2 []]

/-- caffe.io mean subtraction: a per-channel mean of shape `(C, 1, 1)`
broadcast over the spatial axes. -/
def applyMean (m : List Int) (img : Image3) : Image3 :=
  (List.range img.length).map (fun c =>
    (img.getD c []).map (fun row => row.map (fun x => x - m.getD c 0)))

structure Transformer where
  transpose : Option (Nat × Nat × Nat)
  channel_swap : Option (Nat × Nat × Nat)
  raw_scale : Option Int
  mean : Option (List Int)
deriving Repr

/-- Model of `caffe.io.Transformer.preprocess` (modelled from the caffe library):
`astype(float)` (identity on our integer model), then transpose, channel
swap, raw scale and mean, each applied only when configured. -/
def transformerPreprocess (t : Transformer) (img : Image3) : Image3 :=
  let a1 := match t.transpose with
    | some p => applyTranspose p.1 p.2.1 p.2.2 img
    | none => img
  let a2 := match t.channel_swap with
    | some sw => applySwap sw.1 sw.2.1 sw.2.2 a1
    | none => a1
  let a3 := match t.raw_scale with
    | some s => a2.map (fun ch => ch.map (fun row => row.map (fun x => x * s)))
    | none => a2
  match t.mean with
  | some m => applyMean m a3
  | none => a3

/-- The transformer configured by `CaffeExtractor.__init__`
(extractor.py:250-256): `set_transpose('data', (2, 0, 1))` and
`set_channel_swap('data', (2, 1, 0))` — and nothing else: no `set_mean`
and no `set_raw_scale` are ever called. -/
def caffeTransformer : Transformer := ⟨some (2, 0, 1), some (2, 1, 0), none, none⟩

/-- Modelled from the spec: the legacy preprocessing as the spec words
it — transpose to channel-first, reverse the channel order, then subtract
the per-network pixel mean `m`. -/
def specCaffePreprocess (m : List Int) (img : Image3) : Image3 :=
  applyMean m (applySwap 2 1 0 (applyTranspose 2 0 1 img))

/-- A well-formed `H × W × C` image: rectangular with the given extents. -/
def wf3 (img : Image3) (h w c : Nat) : Prop :=
  img.length = h ∧ ∀ row ∈ img, row.length = w ∧ ∀ px ∈ row, px.length = c

theorem getD_range_map {α : Type} (f : Nat → α) (n i : Nat) (d : α)
    (hi : i < n) : ((List.range n).map f).getD i d = f i := by
  simp [List.getD_eq_getElem?_getD, List.getElem?_map, List.getElem?_range, hi]

theorem getD_map_lt {α β : Type} (f : α → β) (l : List α) (i : Nat) (d : β)
    (d' : α) (hi : i < l.length) : (l.map f).getD i d = f (l.getD i d') := by
  simp [List.getD_eq_getElem?_getD, List.getElem?_map]
  rw [List.getElem?_eq_getElem hi]
  rfl

theorem wf3_dims (img : Image3) (h w c : Nat) (hwf : wf3 img h w c)
    (hh : 0 < h) (hw : 0 < w) :
    dimOf img 0 = h ∧ dimOf img 1 = w ∧ dimOf img 2 = c := by
  obtain ⟨hlen, hrows⟩ := hwf
  rcases img with _ | ⟨r, rest⟩
  · simp at hlen; omega
  · have hr := hrows r (List.mem_cons_self _ _)
    rcases r with _ | ⟨p, prest⟩
    · exfalso
      have := hr.1
      simp at this
      omega
    · have hp := hr.2 p (List.mem_cons_self _ _)
      refine ⟨?_, ?_, ?_⟩
      · simpa [dimOf, dim0] using hlen
      · simpa [dimOf, dim1] using hr.1
      · simpa [dimOf, dim2] using hp

theorem get3_applyTranspose201 (img : Image3) (h w : Nat)
    (hwf : wf3 img h w 3) (c i j : Nat) (hc : c < 3) (hi : i < h)
    (hj : j < w) :
    get3 (applyTranspose 2 0 1 img) c i j = get3 img i j c := by
  obtain ⟨hd0, hd1, hd2⟩ := wf3_dims img h w 3 hwf (by omega) (by omega)
  unfold applyTranspose get3
  rw [getD_range_map _ _ _ _ (show c < dimOf img 2 by rw [hd2]; exact hc)]
  rw [getD_range_map _ _ _ _ (show i < dimOf img 0 by rw [hd0]; exact hi)]
  rw [getD_range_map _ _ _ _ (show j < dimOf img 1 by rw [hd1]; exact hj)]
  simp [sel3]

theorem get3_applySwap210 (a : Image3) (c i j : Nat) (hc : c < 3) :
    get3 (applySwap 2 1 0 a) c i j = get3 a (2 - c) i j := by
  interval_cases c <;> rfl

theorem applySwap_getD (a : Image3) (c : Nat) (hc : c < 3) :
    (applySwap 2 1 0 a).getD c [] = a.getD (2 - c) [] := by
  interval_cases c <;> rfl

theorem applyTranspose_getD_length (img : Image3) (p0 p1 p2 cc : Nat)
    (hcc : cc < dimOf img p0) :
    ((applyTranspose p0 p1 p2 img).getD cc []).length = dimOf img p1 := by
  unfold applyTranspose
  rw [getD_range_map _ _ _ _ hcc]
  simp

theorem applyTranspose_getD_getD_length (img : Image3) (p0 p1 p2 cc ii : Nat)
    (hcc : cc < dimOf img p0) (hii : ii < dimOf img p1) :
    (((applyTranspose p0 p1 p2 img).getD cc []).getD ii []).length
      = dimOf img p2 := by
  unfold applyTranspose
  rw [getD_range_map _ _ _ _ hcc, getD_range_map _ _ _ _ hii]
  simp

theorem get3_applyMean (m : List Int) (X : Image3) (c i j : Nat)
    (hc : c < X.length) (hi : i < (X.getD c []).length)
    (hj : j < ((X.getD c []).getD i []).length) :
    get3 (applyMean m X) c i j = get3 X c i j - m.getD c 0 := by
  unfold applyMean get3
  rw [getD_range_map _ _ _ _ hc]
  rw [getD_map_lt _ _ _ _ [] hi]
  rw [getD_map_lt _ _ _ _ 0 hj]

/-- C7 (amended): the legacy variant's transformer preprocesses every
input image by transposing it to channel-first layout and reversing the
channel order (RGB to BGR) — and nothing more: the pixel values
themselves are unchanged, because `CaffeExtractor.__init__` never calls
`set_mean`, so no per-network pixel-mean subtraction takes place (the
spec-worded preprocessing with a mean `m` differs from the code's by
exactly that subtraction). -/
theorem claim_C7 (img : Image3) (h w : Nat) (hwf : wf3 img h w 3)
    (c i j : Nat) (hc : c < 3) (hi : i < h) (hj : j < w) :
    get3 (transformerPreprocess caffeTransformer img) c i j
      = get3 img i j (2 - c)
    ∧ ∀ m : List Int,
        get3 (specCaffePreprocess m img) c i j
          = get3 img i j (2 - c) - m.getD c 0 := by
  obtain ⟨hd0, hd1, hd2⟩ := wf3_dims img h w 3 hwf (by omega) (by omega)
  have e : transformerPreprocess caffeTransformer img
      = applySwap 2 1 0 (applyTranspose 2 0 1 img) := rfl
  have hswap := get3_applySwap210 (applyTranspose 2 0 1 img) c i j hc
  have htr := get3_applyTranspose201 img h w hwf (2 - c) i j (by omega) hi hj
  have hcl : c < (applySwap 2 1 0 (applyTranspose 2 0 1 img)).length := by
    simpa [applySwap] using hc
  have hil : i < ((applySwap 2 1 0 (applyTranspose 2 0 1 img)).getD c []).length := by
    rw [applySwap_getD _ c hc,
      applyTranspose_getD_length img 2 0 1 (2 - c) (by rw [hd2]; omega), hd0]
    exact hi
  have hjl : j <
      (((applySwap 2 1 0 (applyTranspose 2 0 1 img)).getD c []).getD i []).length := by
    rw [applySwap_getD _ c hc,
      applyTranspose_getD_getD_length img 2 0 1 (2 - c) i
        (by rw [hd2]; omega) (by rw [hd0]; exact hi), hd1]
    exact hj
  refine ⟨by rw [e, hswap, htr], ?_⟩
  intro m
  unfold specCaffePreprocess
  rw [get3_applyMean m _ c i j hcl hil hjl, hswap, htr]

def c7Img : Image3 := [[[10, 20, 30]]]

def c7Mean : List Int := [104, 117, 123]

/-- C7 is false as stated: on the concrete 1 × 1 RGB image
`[10, 20, 30]`, the code's transformer produces the channel-first,
channel-reversed image with *unchanged* pixel values, while the
spec-worded preprocessing with the standard per-network mean subtracts the
mean — the two disagree, so the code performs no mean subtraction. -/
theorem claim_C7_counterexample :
    transformerPreprocess caffeTransformer c7Img = [[[30]], [[20]], [[10]]]
    ∧ specCaffePreprocess c7Mean c7Img = [[[-74]], [[-97]], [[-113]]]
    ∧ specCaffePreprocess c7Mean c7Img
        ≠ transformerPreprocess caffeTransformer c7Img := by decide

theorem claim_C7_witness :
    get3 (transformerPreprocess caffeTransformer c7Img) 0 0 0
      = get3 c7Img 0 0 (2 - 0)
    ∧ ∀ m : List Int,
        get3 (specCaffePreprocess m c7Img) 0 0 0
          = get3 c7Img 0 0 (2 - 0) - m.getD 0 0 :=
  claim_C7 c7Img 1 1 (by unfold wf3; decide) 0 0 0 (by decide) (by decide)
    (by decide)

/-! ## Frame property of `extract_features` (C8)

Each `extract_features` is translated statement by statement into a pure
function from a *world* (the caller's batch object plus whatever instance
state the call mutates) to the post-call world and the returned records.
The translation encodes the aliasing analysis of the Python code:

* `TensorFlowExtractor` / `TensorflowHubExtractor`: `session.run` only
  reads the fed arrays; no statement assigns into the batch tuple.
* `KerasExtractor`: `__resize` either returns the array unchanged or
  builds a fresh array from PIL images; `__preprocess_vgg` takes a
  reversed slice (a fresh array object, no write); the keras
  `preprocess_input` functions convert the `uint8` batch with `astype`
  (a copy) before any in-place arithmetic; `model.predict` reads.  All
  assignments rebind the local `image_batch`, never the caller's object.
* `CaffeExtractor`: `self.net.blobs['data'].reshape`, the write to
  `self.net.blobs['data'].data[...]` and `self.net.forward()` mutate the
  *net* (instance state), not the batch; `transformer.preprocess` builds
  new arrays per image.

Hence the world's batch component is returned unchanged, while the caffe
world's net component becomes the post-call net. -/

structure TFWorld where
  batch : XBatch
deriving Repr, DecidableEq

def tensorFlowExtractFeaturesW (forward : NDArray → NDArray) (w : TFWorld) :
    TFWorld × List FeatureTuple :=
  (⟨w.batch⟩, tensorFlowExtractFeatures forward w.batch)

structure HubWorld where
  batch : XBatch
deriving Repr, DecidableEq

def hubExtractFeaturesW (forward : NDArray → NDArray) (w : HubWorld) :
    HubWorld × List FeatureTuple :=
  (⟨w.batch⟩, hubExtractFeatures forward w.batch)

structure KerasWorld where
  batch : XBatch
deriving Repr, DecidableEq

def kerasExtractFeaturesW (resize preprocess predict : NDArray → NDArray)
    (w : KerasWorld) : KerasWorld × List FeatureTuple :=
  (⟨w.batch⟩, kerasExtractFeatures resize preprocess predict w.batch)

structure CaffeWorld where
  net : CaffeNet
  batch : XBatch
deriving Repr, DecidableEq

def caffeExtractFeaturesW (layer : String) (preprocessFn : NDArray → NDArray)
    (forwardFn : CaffeNet → CaffeNet) (w : CaffeWorld) :
    CaffeWorld × List FeatureTuple :=
  (⟨(caffeExtractFeatures layer preprocessFn forwardFn w.net w.batch).1,
    w.batch⟩,
   (caffeExtractFeatures layer preprocessFn forwardFn w.net w.batch).2)

/-- C8: for every backend variant and every batch, `extract_features`
does not mutate the caller's batch: the identifier sequence, timestamp
sequence and image array of the batch after the call are those before the
call — even for the legacy variant, whose call does mutate its own net
state (the world's net component becomes the post-forward net while the
batch component is untouched). -/
theorem claim_C8 :
    (∀ (forward : NDArray → NDArray) (w : TFWorld),
      (tensorFlowExtractFeaturesW forward w).1.batch = w.batch)
    ∧ (∀ (forward : NDArray → NDArray) (w : HubWorld),
      (hubExtractFeaturesW forward w).1.batch = w.batch)
    ∧ (∀ (resize preprocess predict : NDArray → NDArray) (w : KerasWorld),
      (kerasExtractFeaturesW resize preprocess predict w).1.batch = w.batch)
    ∧ (∀ (layer : String) (preprocessFn : NDArray → NDArray)
        (forwardFn : CaffeNet → CaffeNet) (w : CaffeWorld),
      (caffeExtractFeaturesW layer preprocessFn forwardFn w).1.batch = w.batch
      ∧ (caffeExtractFeaturesW layer preprocessFn forwardFn w).1.net
          = (caffeExtractFeatures layer preprocessFn forwardFn
              w.net w.batch).1) :=
  ⟨fun _ _ => rfl, fun _ _ => rfl, fun _ _ _ _ => rfl,
   fun _ _ _ _ => ⟨rfl, rfl⟩⟩
